import Mathlib

/-!
Formal model of the StellarCade settlement core: the prize-pool settlement
ledger, the random-generator oracle, and the game-resolution lifecycle
(number-guess, coin-flip, dice-roll, color-prediction).

The Soroban contract sources themselves are not part of this tree; the model
below is built from the repository's generated contract documentation
(docs/contracts/prize-pool.md, docs/contracts/number-guess.md,
docs/contracts/coin-flip.md, the random-generator and color-prediction and
dice-roll documentation) together with the design specification, and from the
frontend error catalog (the PrizePoolErrors table).  Addresses are modelled as
naturals, token amounts as integers, byte strings as lists of naturals < 256.
External token transfers are modelled as explicit effect logs, so that the
order between internal bookkeeping and external transfers is visible in the
model.
-/

/-- Association-list lookup keyed by a natural number. -/
def alookup {β : Type} : List (Nat × β) → Nat → Option β
  | [], _ => none
  | (k, v) :: rest, key => if k = key then some v else alookup rest key

/-- Overwrite the value stored under `key` (first occurrence). -/
def aset {β : Type} : List (Nat × β) → Nat → β → List (Nat × β)
  | [], _, _ => []
  | (k, v) :: rest, key, w => if k = key then (k, w) :: rest else (k, v) :: aset rest key w

/-- Remove the entry stored under `key` (first occurrence). -/
def aremove {β : Type} : List (Nat × β) → Nat → List (Nat × β)
  | [], _ => []
  | (k, v) :: rest, key => if k = key then rest else (k, v) :: aremove rest key

theorem alookup_aset_self {β : Type} (l : List (Nat × β)) (k : Nat) (w : β) :
    alookup l k ≠ none → alookup (aset l k w) k = some w := by
  induction l with
  | nil => intro h; simp [alookup] at h
  | cons p rest ih =>
    intro h
    by_cases hk : p.1 = k
    · simp [alookup, aset, hk]
    · simp [alookup, aset, hk] at h ⊢
      exact ih h

theorem alookup_aset_ne {β : Type} (l : List (Nat × β)) (k k' : Nat) (w : β) (h : k ≠ k') :
    alookup (aset l k w) k' = alookup l k' := by
  induction l with
  | nil => simp [aset]
  | cons p rest ih =>
    by_cases hk : p.1 = k
    · simp [alookup, aset, hk, h]
    · simp [alookup, aset, hk]
      by_cases hk' : p.1 = k'
      · simp [hk']
      · simp [hk', ih]

theorem alookup_mem {β : Type} (l : List (Nat × β)) (k : Nat) (v : β)
    (h : alookup l k = some v) : (k, v) ∈ l := by
  induction l with
  | nil => simp [alookup] at h
  | cons p rest ih =>
    by_cases hk : p.1 = k
    · simp [alookup, hk] at h
      have hp : p = (k, v) := by
        cases p with
        | mk a b => simp at hk h; rw [hk, h]
      rw [← hp]
      exact List.mem_cons_self _ _
    · simp [alookup, hk] at h
      exact List.mem_cons_of_mem _ (ih h)

theorem alookup_aremove_ne {β : Type} (l : List (Nat × β)) (k k' : Nat) (h : k ≠ k') :
    alookup (aremove l k) k' = alookup l k' := by
  induction l with
  | nil => simp [aremove]
  | cons p rest ih =>
    by_cases hk : p.1 = k
    · subst hk
      simp [aremove, alookup, h]
    · by_cases hk' : p.1 = k'
      · simp [alookup, aremove, hk, hk', Ne.symm h]
      · simp [alookup, aremove, hk, hk', ih]

theorem alookup_aremove_self {β : Type} (l : List (Nat × β)) (k : Nat)
    (hnd : (l.map Prod.fst).Nodup) :
    alookup (aremove l k) k = none := by
  induction l with
  | nil => simp [aremove, alookup]
  | cons p rest ih =>
    simp only [List.map_cons, List.nodup_cons] at hnd
    by_cases hk : p.1 = k
    · subst hk
      simp only [aremove, if_pos rfl]
      cases hl : alookup rest p.1 with
      | none => exact hl
      | some v =>
        exfalso
        have hmem : p.1 ∈ rest.map Prod.fst :=
          List.mem_map.mpr ⟨(p.1, v), alookup_mem rest p.1 v hl, rfl⟩
        exact hnd.1 hmem
    · simp [aremove, alookup, hk, ih hnd.2]

theorem aset_map_fst {β : Type} (l : List (Nat × β)) (k : Nat) (w : β) :
    (aset l k w).map Prod.fst = l.map Prod.fst := by
  induction l with
  | nil => simp [aset]
  | cons p rest ih =>
    by_cases hk : p.1 = k
    · simp [aset, hk]
    · simp [aset, hk, ih]

theorem aremove_map_fst_sublist {β : Type} (l : List (Nat × β)) (k : Nat) :
    ((aremove l k).map Prod.fst).Sublist (l.map Prod.fst) := by
  induction l with
  | nil => simp [aremove]
  | cons p rest ih =>
    by_cases hk : p.1 = k
    · simp only [aremove, hk, if_pos rfl, List.map_cons]
      exact (List.sublist_cons_self _ _).trans (List.Sublist.refl _)
    · simp only [aremove, hk, if_neg hk, List.map_cons]
      exact List.Sublist.cons₂ _ ih

theorem mem_aset {β : Type} (l : List (Nat × β)) (k : Nat) (w : β) (p : Nat × β)
    (h : p ∈ aset l k w) : p.2 = w ∨ p ∈ l := by
  induction l with
  | nil => simp [aset] at h
  | cons q rest ih =>
    by_cases hk : q.1 = k
    · simp only [aset, hk, if_pos rfl] at h
      rcases List.mem_cons.mp h with h | h
      · left; rw [h]
      · right; exact List.mem_cons_of_mem _ h
    · simp only [aset, if_neg hk] at h
      rcases List.mem_cons.mp h with h | h
      · right; rw [h]; exact List.mem_cons_self _ _
      · rcases ih h with h' | h'
        · left; exact h'
        · right; exact List.mem_cons_of_mem _ h'

theorem mem_aremove {β : Type} (l : List (Nat × β)) (k : Nat) (p : Nat × β)
    (h : p ∈ aremove l k) : p ∈ l := by
  induction l with
  | nil => simp [aremove] at h
  | cons q rest ih =>
    by_cases hk : q.1 = k
    · simp only [aremove, hk, if_pos rfl] at h
      exact List.mem_cons_of_mem _ h
    · simp only [aremove, if_neg hk] at h
      rcases List.mem_cons.mp h with h | h
      · rw [h]; exact List.mem_cons_self _ _
      · exact List.mem_cons_of_mem _ (ih h)

namespace Sha256

/-! SHA-256 over byte lists, as used by the random-generator contract to
derive `result = sha256(server_seed || request_id_be_bytes)[0..8] % max`.
32-bit machine words are naturals reduced modulo `2 ^ 32`; the bitwise
operations recurse over the 32 bits explicitly. -/

def mask32 : Nat := 4294967296

/-- Combine two 32-bit words bit by bit with `f` acting on single bits. -/
def bitwise2 (f : Nat → Nat → Nat) : Nat → Nat → Nat → Nat
  | 0, _, _ => 0
  | fuel+1, x, y => f (x % 2) (y % 2) + 2 * bitwise2 f fuel (x / 2) (y / 2)

def land32 (x y : Nat) : Nat := bitwise2 (fun a b => a * b) 32 x y

def lxor32 (x y : Nat) : Nat := bitwise2 (fun a b => (a + b) % 2) 32 x y

def compl32 (x : Nat) : Nat := 4294967295 - x % mask32

def rotr32 (n x : Nat) : Nat := x / 2 ^ n + x % 2 ^ n * 2 ^ (32 - n)

def shr32 (n x : Nat) : Nat := x / 2 ^ n

def ch (e f g : Nat) : Nat := lxor32 (land32 e f) (land32 (compl32 e) g)

def maj (a b c : Nat) : Nat := lxor32 (land32 a b) (lxor32 (land32 a c) (land32 b c))

def bigSigma0 (a : Nat) : Nat := lxor32 (rotr32 2 a) (lxor32 (rotr32 13 a) (rotr32 22 a))

def bigSigma1 (e : Nat) : Nat := lxor32 (rotr32 6 e) (lxor32 (rotr32 11 e) (rotr32 25 e))

def smallSigma0 (x : Nat) : Nat := lxor32 (rotr32 7 x) (lxor32 (rotr32 18 x) (shr32 3 x))

def smallSigma1 (x : Nat) : Nat := lxor32 (rotr32 17 x) (lxor32 (rotr32 19 x) (shr32 10 x))

def kConst : List Nat :=
  [1116352408, 1899447441, 3049323471, 3921009573,
   961987163, 1508970993, 2453635748, 2870763221,
   3624381080, 310598401, 607225278, 1426881987,
   1925078388, 2162078206, 2614888103, 3248222580,
   3835390401, 4022224774, 264347078, 604807628,
   770255983, 1249150122, 1555081692, 1996064986,
   2554220882, 2821834349, 2952996808, 3210313671,
   3336571891, 3584528711, 113926993, 338241895,
   666307205, 773529912, 1294757372, 1396182291,
   1695183700, 1986661051, 2177026350, 2456956037,
   2730485921, 2820302411, 3259730800, 3345764771,
   3516065817, 3600352804, 4094571909, 275423344,
   430227734, 506948616, 659060556, 883997877,
   958139571, 1322822218, 1537002063, 1747873779,
   1955562222, 2024104815, 2227730452, 2361852424,
   2428436474, 2756734187, 3204031479, 3329325298]

/-- The eight working variables of the compression function. -/
structure Hs where
  a : Nat
  b : Nat
  c : Nat
  d : Nat
  e : Nat
  f : Nat
  g : Nat
  hh : Nat
deriving DecidableEq

def initH : Hs :=
  ⟨1779033703, 3144134277, 1013904242, 2773480762,
   1359893119, 2600822924, 528734635, 1541459225⟩

def u32ToBytes (w : Nat) : List Nat :=
  [w / 2 ^ 24 % 256, w / 2 ^ 16 % 256, w / 2 ^ 8 % 256, w % 256]

/-- A 64-bit value as 8 big-endian bytes, as in `request_id_be_bytes`. -/
def u64ToBytes (n : Nat) : List Nat :=
  [n / 2 ^ 56 % 256, n / 2 ^ 48 % 256, n / 2 ^ 40 % 256, n / 2 ^ 32 % 256,
   n / 2 ^ 24 % 256, n / 2 ^ 16 % 256, n / 2 ^ 8 % 256, n % 256]

def bytesToWords : List Nat → List Nat
  | a :: b :: c :: d :: rest => (((a * 256 + b) * 256 + c) * 256 + d) :: bytesToWords rest
  | _ => []

def pad (msg : List Nat) : List Nat :=
  msg ++ [128] ++ List.replicate ((119 - msg.length % 64) % 64) 0 ++ u64ToBytes (8 * msg.length)

def chunksAux : Nat → List Nat → List (List Nat)
  | 0, _ => []
  | _, [] => []
  | n+1, ws => ws.take 16 :: chunksAux n (ws.drop 16)

def schedStep (ws : List Nat) : Nat :=
  let t := ws.length
  (smallSigma1 (ws.getD (t - 2) 0) + ws.getD (t - 7) 0 +
   smallSigma0 (ws.getD (t - 15) 0) + ws.getD (t - 16) 0) % mask32

def sched : Nat → List Nat → List Nat
  | 0, ws => ws
  | n+1, ws => sched n (ws ++ [schedStep ws])

def round (s : Hs) (kw : Nat) : Hs :=
  let t1 := (s.hh + bigSigma1 s.e + ch s.e s.f s.g + kw) % mask32
  let t2 := (bigSigma0 s.a + maj s.a s.b s.c) % mask32
  ⟨(t1 + t2) % mask32, s.a, s.b, s.c, (s.d + t1) % mask32, s.e, s.f, s.g⟩

def compress (h0 : Hs) (block : List Nat) : Hs :=
  let w := sched 48 block
  let s := (kConst.zip w).foldl (fun s p => round s ((p.1 + p.2) % mask32)) h0
  ⟨(h0.a + s.a) % mask32, (h0.b + s.b) % mask32, (h0.c + s.c) % mask32, (h0.d + s.d) % mask32,
   (h0.e + s.e) % mask32, (h0.f + s.f) % mask32, (h0.g + s.g) % mask32, (h0.hh + s.hh) % mask32⟩

/-- SHA-256 digest of a byte list, as 32 bytes.  Checked against the FIPS
test vectors for the empty string and for the three-byte message 0x616263. -/
def sha256 (msg : List Nat) : List Nat :=
  let ws := bytesToWords (pad msg)
  let hf := (chunksAux (ws.length + 16) ws).foldl compress initH
  u32ToBytes hf.a ++ u32ToBytes hf.b ++ u32ToBytes hf.c ++ u32ToBytes hf.d ++
  u32ToBytes hf.e ++ u32ToBytes hf.f ++ u32ToBytes hf.g ++ u32ToBytes hf.hh

/-- Big-endian byte list read as a natural number. -/
def beToNat (bs : List Nat) : Nat := bs.foldl (fun acc b => acc * 256 + b) 0

end Sha256

namespace PrizePool

/-! The prize-pool settlement ledger.  The Soroban source of the contract is
absent from the tree; each operation below is modelled from the spec and from
docs/contracts/prize-pool.md.  Token movements caused by `fund` and `payout`
are external effects and do not change the pool's accounting state; `payout`
is therefore split into its committed accounting step and the emitted
transfer, in that order, exactly as the documentation prescribes. -/

abbrev Addr := Nat

abbrev GameId := Nat

/-- Error kinds of the prize-pool contract, from the PrizePoolErrors catalog. -/
inductive Error where
  | AlreadyInitialized
  | NotInitialized
  | NotAuthorized
  | InvalidAmount
  | InsufficientFunds
  | GameAlreadyReserved
  | ReservationNotFound
  | PayoutExceedsReservation
  | Overflow
deriving DecidableEq

/-- Modelled from the spec: the pool account of the absent prize-pool
contract.  `available` is the unreserved balance, `reservations` the live
per-game earmarks, and `funded` the cumulative total of amounts accepted by
`fund` (bookkeeping used to state the conservation invariant; it is written
only by `fund`). -/
structure PoolState where
  available : Int
  reservations : List (GameId × Int)
  funded : Int
deriving DecidableEq

/-- The freshly initialized pool: nothing funded, nothing reserved. -/
def initState : PoolState := ⟨0, [], 0⟩

/-- Sum of `remaining` over all live reservations. -/
def sumRemaining (rs : List (GameId × Int)) : Int := (rs.map Prod.snd).sum

/-- Modelled from the spec: `fund(from, amount)` transfers `amount` of the
settlement asset from `src` into the pool and increments `available`; fails
`InvalidAmount` if `amount ≤ 0`.  The token movement itself is external. -/
def fund (s : PoolState) (_src : Addr) (amount : Int) : Except Error PoolState :=
  if amount ≤ 0 then .error .InvalidAmount
  else .ok ⟨s.available + amount, s.reservations, s.funded + amount⟩

/-- Modelled from the spec: `reserve(game_id, amount)` earmarks `amount` from
`available` into a new reservation; fails `GameAlreadyReserved` if one exists
for `game_id`, `InvalidAmount` on a non-positive amount, `InsufficientFunds`
if `amount > available`. -/
def reserve (s : PoolState) (gid : GameId) (amount : Int) : Except Error PoolState :=
  match alookup s.reservations gid with
  | some _ => .error .GameAlreadyReserved
  | none =>
    if amount ≤ 0 then .error .InvalidAmount
    else if s.available < amount then .error .InsufficientFunds
    else .ok ⟨s.available - amount, (gid, amount) :: s.reservations, s.funded⟩

/-- Modelled from the spec: `release(game_id, amount)` returns up to
`remaining` from the reservation back to `available`; partial releases are
valid; the reservation is deleted once `remaining` hits 0; fails
`ReservationNotFound` when no reservation exists. -/
def release (s : PoolState) (gid : GameId) (amount : Int) : Except Error PoolState :=
  match alookup s.reservations gid with
  | none => .error .ReservationNotFound
  | some r =>
    if amount ≤ 0 then .error .InvalidAmount
    else
      let rel := min amount r
      .ok ⟨s.available + rel,
           if r - rel = 0 then aremove s.reservations gid else aset s.reservations gid (r - rel),
           s.funded⟩

/-- Modelled from the spec: the accounting half of `payout(game_id, to,
amount)` — decrement the reservation's `remaining`, deleting it at zero;
fails `ReservationNotFound`, `InvalidAmount`, or `PayoutExceedsReservation`
when `amount > remaining`.  This state is committed before the token
transfer is attempted. -/
def payoutCommit (s : PoolState) (gid : GameId) (amount : Int) : Except Error PoolState :=
  match alookup s.reservations gid with
  | none => .error .ReservationNotFound
  | some r =>
    if amount ≤ 0 then .error .InvalidAmount
    else if r < amount then .error .PayoutExceedsReservation
    else .ok ⟨s.available,
              if r = amount then aremove s.reservations gid else aset s.reservations gid (r - amount),
              s.funded⟩

/-- An external token transfer out of the pool. -/
structure Transfer where
  dest : Addr
  amount : Int
deriving DecidableEq

/-- The two internal steps of a successful `payout`, in execution order. -/
inductive PayoutStep where
  | commitLedger (committed : PoolState)
  | transferToken (dest : Addr) (amount : Int)
deriving DecidableEq

/-- Modelled from the spec: `payout` runs its accounting commit first and
only then attempts the external transfer; the returned step list is in
execution order. -/
def payoutTrace (s : PoolState) (gid : GameId) (dest : Addr) (amount : Int) :
    Except Error (List PayoutStep) :=
  match payoutCommit s gid amount with
  | .error e => .error e
  | .ok s' => .ok [.commitLedger s', .transferToken dest amount]

/-- One `payout` invocation in which the external token transfer may abort
(`transferOk = false`).  The accounting commit is durable either way; the
transfer is emitted only when it went through.  A failed commit changes
nothing and transfers nothing. -/
def payoutAttempt (s : PoolState) (gid : GameId) (dest : Addr) (amount : Int)
    (transferOk : Bool) : PoolState × List Transfer :=
  match payoutCommit s gid amount with
  | .error _ => (s, [])
  | .ok s' => (s', if transferOk then [⟨dest, amount⟩] else [])

/-- Run a sequence of payout attempts against one game, concatenating the
transfers that actually went out. -/
def runAttempts (gid : GameId) : PoolState → List (Addr × Int × Bool) → PoolState × List Transfer
  | s, [] => (s, [])
  | s, (dest, amount, ok) :: rest =>
    let p := payoutAttempt s gid dest amount ok
    let q := runAttempts gid p.1 rest
    (q.1, p.2 ++ q.2)

/-- Total amount moved out by a list of transfers. -/
def transferredTotal (ts : List Transfer) : Int := (ts.map Transfer.amount).sum

/-- `remaining` of the reservation for `gid`, 0 when none exists. -/
def remainingOf (s : PoolState) (gid : GameId) : Int :=
  (alookup s.reservations gid).getD 0

/-- A ledger call in a trace: `payout` carries whether its external transfer
went through (the accounting outcome is identical either way). -/
inductive Op where
  | fund (src : Addr) (amount : Int)
  | reserve (gid : GameId) (amount : Int)
  | release (gid : GameId) (amount : Int)
  | payout (gid : GameId) (dest : Addr) (amount : Int) (transferOk : Bool)
deriving DecidableEq

/-- Apply one call; a call that fails with an error leaves the state
unchanged (calls are all-or-nothing). -/
def applyOp (s : PoolState) : Op → PoolState
  | .fund src a => ((fund s src a).toOption).getD s
  | .reserve g a => ((reserve s g a).toOption).getD s
  | .release g a => ((release s g a).toOption).getD s
  | .payout g d a ok => (payoutAttempt s g d a ok).1

def applyOps (s : PoolState) (ops : List Op) : PoolState := ops.foldl applyOp s

/-- The conservation invariant of the ledger, together with the auxiliary
facts its preservation needs: every live reservation is nonnegative and the
reservation keys are distinct. -/
def Inv (s : PoolState) : Prop :=
  0 ≤ s.available ∧ (∀ p ∈ s.reservations, 0 ≤ p.2) ∧
  (s.reservations.map Prod.fst).Nodup ∧
  s.available + sumRemaining s.reservations ≤ s.funded

end PrizePool

namespace PrizePool

theorem alookup_none_not_mem {β : Type} (l : List (Nat × β)) (k : Nat)
    (h : alookup l k = none) : k ∉ l.map Prod.fst := by
  induction l with
  | nil => simp
  | cons p rest ih =>
    by_cases hk : p.1 = k
    · simp [alookup, hk] at h
    · simp [alookup, hk] at h
      simp [ih h]
      intro hc
      exact hk hc.symm

theorem sumRemaining_cons (p : GameId × Int) (rs : List (GameId × Int)) :
    sumRemaining (p :: rs) = p.2 + sumRemaining rs := by
  simp [sumRemaining]

theorem sumRemaining_aset (rs : List (GameId × Int)) (g : GameId) (r v : Int)
    (h : alookup rs g = some r) :
    sumRemaining (aset rs g v) = sumRemaining rs - r + v := by
  induction rs with
  | nil => simp [alookup] at h
  | cons p rest ih =>
    by_cases hk : p.1 = g
    · simp [alookup, hk] at h
      simp [aset, hk, sumRemaining_cons]
      omega
    · simp [alookup, hk] at h
      simp only [aset, if_neg hk, sumRemaining_cons, ih h]
      omega

theorem sumRemaining_aremove (rs : List (GameId × Int)) (g : GameId) (r : Int)
    (h : alookup rs g = some r) :
    sumRemaining (aremove rs g) = sumRemaining rs - r := by
  induction rs with
  | nil => simp [alookup] at h
  | cons p rest ih =>
    by_cases hk : p.1 = g
    · simp [alookup, hk] at h
      simp [aremove, hk, sumRemaining_cons]
      omega
    · simp [alookup, hk] at h
      simp only [aremove, if_neg hk, sumRemaining_cons, ih h]
      omega

theorem inv_mk (av : Int) (rs : List (GameId × Int)) (f : Int)
    (h1 : 0 ≤ av) (h2 : ∀ p ∈ rs, 0 ≤ p.2) (h3 : (rs.map Prod.fst).Nodup)
    (h4 : av + sumRemaining rs ≤ f) : Inv ⟨av, rs, f⟩ := ⟨h1, h2, h3, h4⟩

theorem fund_ok (s : PoolState) (src : Addr) (a : Int) (s' : PoolState)
    (h : fund s src a = .ok s') :
    s' = ⟨s.available + a, s.reservations, s.funded + a⟩ ∧ 0 < a := by
  unfold fund at h
  split at h
  · exact absurd h (by simp)
  · rename_i ha
    simp only [Except.ok.injEq] at h
    exact ⟨h.symm, by omega⟩

theorem reserve_ok (s : PoolState) (g : GameId) (a : Int) (s' : PoolState)
    (h : reserve s g a = .ok s') :
    s' = ⟨s.available - a, (g, a) :: s.reservations, s.funded⟩ ∧
    alookup s.reservations g = none ∧ 0 < a ∧ a ≤ s.available := by
  unfold reserve at h
  split at h
  next r heq => exact absurd h (by simp)
  next heq =>
    split at h
    next ha => exact absurd h (by simp)
    next ha =>
      split at h
      next hlt => exact absurd h (by simp)
      next hlt =>
        simp only [Except.ok.injEq] at h
        exact ⟨h.symm, heq, by omega, by omega⟩

theorem release_ok (s : PoolState) (g : GameId) (a : Int) (s' : PoolState)
    (h : release s g a = .ok s') :
    ∃ r, alookup s.reservations g = some r ∧ 0 < a ∧
      s' = ⟨s.available + min a r,
            if r - min a r = 0 then aremove s.reservations g
            else aset s.reservations g (r - min a r),
            s.funded⟩ := by
  unfold release at h
  split at h
  next heq => exact absurd h (by simp)
  next r heq =>
    split at h
    next ha => exact absurd h (by simp)
    next ha =>
      simp only [Except.ok.injEq] at h
      exact ⟨r, heq, by omega, h.symm⟩

theorem payoutCommit_ok (s : PoolState) (gid : GameId) (amount : Int) (s' : PoolState)
    (h : payoutCommit s gid amount = .ok s') :
    ∃ r, alookup s.reservations gid = some r ∧ 0 < amount ∧ amount ≤ r ∧
      s' = ⟨s.available,
            if r = amount then aremove s.reservations gid
            else aset s.reservations gid (r - amount),
            s.funded⟩ := by
  unfold payoutCommit at h
  split at h
  next heq => exact absurd h (by simp)
  next r heq =>
    split at h
    next ha => exact absurd h (by simp)
    next ha =>
      split at h
      next hra => exact absurd h (by simp)
      next hra =>
        simp only [Except.ok.injEq] at h
        exact ⟨r, heq, by omega, by omega, h.symm⟩

theorem initState_inv : Inv initState := by
  refine ⟨le_refl 0, ?_, ?_, ?_⟩ <;> simp [initState, sumRemaining]

theorem inv_applyOp (s : PoolState) (op : Op) (h : Inv s) : Inv (applyOp s op) := by
  obtain ⟨hav, hpos, hnd, hsum⟩ := h
  cases op with
  | fund src a =>
    simp only [applyOp]
    cases hf : fund s src a with
    | error e => exact ⟨hav, hpos, hnd, hsum⟩
    | ok s' =>
      obtain ⟨hs', ha⟩ := fund_ok s src a s' hf
      subst hs'
      exact inv_mk _ _ _ (by omega) hpos hnd (by omega)
  | reserve g a =>
    simp only [applyOp]
    cases hf : reserve s g a with
    | error e => exact ⟨hav, hpos, hnd, hsum⟩
    | ok s' =>
      obtain ⟨hs', hl, ha, hle⟩ := reserve_ok s g a s' hf
      subst hs'
      refine inv_mk _ _ _ (by omega) ?_ ?_ ?_
      · intro p hp
        rcases List.mem_cons.mp hp with hp | hp
        · rw [hp]; omega
        · exact hpos p hp
      · simp only [List.map_cons, List.nodup_cons]
        exact ⟨alookup_none_not_mem _ _ hl, hnd⟩
      · rw [sumRemaining_cons]
        omega
  | release g a =>
    simp only [applyOp]
    cases hf : release s g a with
    | error e => exact ⟨hav, hpos, hnd, hsum⟩
    | ok s' =>
      obtain ⟨r, hl, ha, hs'⟩ := release_ok s g a s' hf
      subst hs'
      have hr : 0 ≤ r := hpos _ (alookup_mem _ _ _ hl)
      have hm1 : min a r ≤ r := min_le_right _ _
      have hm2 : 0 ≤ min a r := le_min (by omega) hr
      by_cases hz : r - min a r = 0
      · rw [if_pos hz]
        refine inv_mk _ _ _ (by omega) ?_ ?_ ?_
        · intro p hp; exact hpos p (mem_aremove _ _ _ hp)
        · exact hnd.sublist (aremove_map_fst_sublist _ _)
        · rw [sumRemaining_aremove s.reservations g r hl]
          omega
      · rw [if_neg hz]
        refine inv_mk _ _ _ (by omega) ?_ ?_ ?_
        · intro p hp
          rcases mem_aset _ _ _ _ hp with hp' | hp'
          · omega
          · exact hpos p hp'
        · rw [aset_map_fst]; exact hnd
        · rw [sumRemaining_aset s.reservations g r (r - min a r) hl]
          omega
  | payout g d a ok =>
    simp only [applyOp, payoutAttempt]
    cases hf : payoutCommit s g a with
    | error e => exact ⟨hav, hpos, hnd, hsum⟩
    | ok s' =>
      obtain ⟨r, hl, ha, hle, hs'⟩ := payoutCommit_ok s g a s' hf
      subst hs'
      have hr : 0 ≤ r := hpos _ (alookup_mem _ _ _ hl)
      by_cases he : r = a
      · rw [if_pos he]
        refine inv_mk _ _ _ hav ?_ ?_ ?_
        · intro p hp; exact hpos p (mem_aremove _ _ _ hp)
        · exact hnd.sublist (aremove_map_fst_sublist _ _)
        · rw [sumRemaining_aremove s.reservations g r hl]
          omega
      · rw [if_neg he]
        refine inv_mk _ _ _ hav ?_ ?_ ?_
        · intro p hp
          rcases mem_aset _ _ _ _ hp with hp' | hp'
          · omega
          · exact hpos p hp'
        · rw [aset_map_fst]; exact hnd
        · rw [sumRemaining_aset s.reservations g r (r - a) hl]
          omega

theorem inv_applyOps (ops : List Op) (s : PoolState) (h : Inv s) : Inv (applyOps s ops) := by
  induction ops generalizing s with
  | nil => exact h
  | cons op rest ih => exact ih (applyOp s op) (inv_applyOp s op h)

end PrizePool

namespace PrizePool

theorem payoutCommit_remaining (s : PoolState) (gid : GameId) (amount : Int) (s' : PoolState)
    (hnd : (s.reservations.map Prod.fst).Nodup)
    (h : payoutCommit s gid amount = .ok s') :
    remainingOf s' gid = remainingOf s gid - amount ∧ 0 < amount ∧
    amount ≤ remainingOf s gid ∧
    (s'.reservations.map Prod.fst).Nodup ∧ s'.available = s.available := by
  obtain ⟨r, hl, ha, hle, hs'⟩ := payoutCommit_ok s gid amount s' h
  subst hs'
  have hrem : remainingOf s gid = r := by simp [remainingOf, hl]
  by_cases he : r = amount
  · refine ⟨?_, ha, by omega, ?_, rfl⟩
    · dsimp only [remainingOf]
      rw [if_pos he, alookup_aremove_self _ _ hnd]
      simp [remainingOf, hl] at hrem ⊢
      omega
    · dsimp only
      rw [if_pos he]
      exact hnd.sublist (aremove_map_fst_sublist _ _)
  · refine ⟨?_, ha, by omega, ?_, rfl⟩
    · dsimp only [remainingOf]
      rw [if_neg he, alookup_aset_self _ _ _ (by rw [hl]; simp)]
      simp [remainingOf, hl] at hrem ⊢
    · dsimp only
      rw [if_neg he, aset_map_fst]
      exact hnd

theorem transferredTotal_append (a b : List Transfer) :
    transferredTotal (a ++ b) = transferredTotal a + transferredTotal b := by
  simp [transferredTotal]

theorem runAttempts_bound (gid : GameId) (attempts : List (Addr × Int × Bool)) (s : PoolState)
    (hnd : (s.reservations.map Prod.fst).Nodup) (h0 : 0 ≤ remainingOf s gid) :
    transferredTotal (runAttempts gid s attempts).2 +
      remainingOf (runAttempts gid s attempts).1 gid ≤ remainingOf s gid ∧
    0 ≤ remainingOf (runAttempts gid s attempts).1 gid := by
  induction attempts generalizing s with
  | nil =>
    refine ⟨?_, h0⟩
    simp [runAttempts, transferredTotal]
  | cons t rest ih =>
    obtain ⟨dest, amount, ok⟩ := t
    have hsplit : runAttempts gid s ((dest, amount, ok) :: rest) =
        ((runAttempts gid (payoutAttempt s gid dest amount ok).1 rest).1,
         (payoutAttempt s gid dest amount ok).2 ++
           (runAttempts gid (payoutAttempt s gid dest amount ok).1 rest).2) := rfl
    rw [hsplit]
    dsimp only
    cases hc : payoutCommit s gid amount with
    | error e =>
      have hp1 : (payoutAttempt s gid dest amount ok).1 = s := by
        simp [payoutAttempt, hc]
      have hp2 : (payoutAttempt s gid dest amount ok).2 = [] := by
        simp [payoutAttempt, hc]
      rw [hp1, hp2]
      obtain ⟨ih1, ih2⟩ := ih s hnd h0
      simpa using ⟨ih1, ih2⟩
    | ok s' =>
      have hp1 : (payoutAttempt s gid dest amount ok).1 = s' := by
        simp [payoutAttempt, hc]
      obtain ⟨hrem', ha, hle, hnd', _⟩ := payoutCommit_remaining s gid amount s' hnd hc
      have hp2 : transferredTotal (payoutAttempt s gid dest amount ok).2 ≤ amount ∧
          0 ≤ transferredTotal (payoutAttempt s gid dest amount ok).2 := by
        cases ok <;> simp [payoutAttempt, hc, transferredTotal] <;> omega
      rw [hp1]
      obtain ⟨ih1, ih2⟩ := ih s' hnd' (by omega)
      rw [transferredTotal_append]
      exact ⟨by omega, ih2⟩

/-- Claim C1: for every finite sequence of fund, reserve, release, and payout
calls against the settlement ledger starting from the initialized state,
`available` plus the sum of `remaining` over all live reservations never
exceeds the cumulative total of amounts accepted by `fund`, and `available`
is never negative.  Quantifying over arbitrary traces covers the state after
every call of any sequence. -/
theorem C1_conservation (ops : List Op) :
    0 ≤ (applyOps initState ops).available ∧
    (applyOps initState ops).available + sumRemaining (applyOps initState ops).reservations ≤
      (applyOps initState ops).funded := by
  have h := inv_applyOps ops initState initState_inv
  exact ⟨h.1, h.2.2.2⟩

/-- Claim C2: in every `payout(game_id, to, amount)` the ledger debit is
committed before the external transfer is attempted: the successful call's
step trace lists the ledger commit strictly before the token transfer; when
the transfer aborts, the surviving state already records the debit
(`remaining` dropped by `amount`) while nothing was transferred; and over any
sequence of payout attempts against the game — aborted ones and retries
included — the total actually transferred never exceeds the initially
reserved `remaining`, so a retry cannot pay the same amount twice. -/
theorem C2_payout_commit_before_transfer (s : PoolState) (gid : GameId) (dest : Addr)
    (amount r : Int) (hr : alookup s.reservations gid = some r)
    (hnd : (s.reservations.map Prod.fst).Nodup)
    (h0 : 0 < amount) (hle : amount ≤ r) :
    payoutTrace s gid dest amount =
      .ok [.commitLedger (payoutAttempt s gid dest amount false).1,
           .transferToken dest amount] ∧
    remainingOf (payoutAttempt s gid dest amount false).1 gid = r - amount ∧
    (payoutAttempt s gid dest amount false).2 = [] ∧
    ∀ attempts, transferredTotal (runAttempts gid s attempts).2 ≤ r := by
  have hc : payoutCommit s gid amount =
      .ok ⟨s.available,
           if r = amount then aremove s.reservations gid
           else aset s.reservations gid (r - amount),
           s.funded⟩ := by
    simp only [payoutCommit, hr]
    rw [if_neg (by omega : ¬ amount ≤ 0), if_neg (by omega : ¬ r < amount)]
  have hrem : remainingOf s gid = r := by simp [remainingOf, hr]
  obtain ⟨hrem', _, _, _, _⟩ := payoutCommit_remaining s gid amount _ hnd hc
  have hp1 : (payoutAttempt s gid dest amount false).1 =
      ⟨s.available,
       if r = amount then aremove s.reservations gid
       else aset s.reservations gid (r - amount),
       s.funded⟩ := by
    simp [payoutAttempt, hc]
  refine ⟨?_, ?_, ?_, ?_⟩
  · simp [payoutTrace, payoutAttempt, hc]
  · rw [hp1, hrem', hrem]
  · simp [payoutAttempt, hc]
  · intro attempts
    obtain ⟨b1, b2⟩ := runAttempts_bound gid attempts s hnd (by omega)
    omega

/-- Witness for C2 at the documentation's Scenario A numbers: pool of 1000
funded, 300 reserved for game 1; a payout of 300 whose transfer aborts still
drains the reservation and transfers nothing, and two attempts (one aborted,
one retried) move at most 300 in total. -/
theorem C2_witness :
    remainingOf (payoutAttempt ⟨700, [(1, 300)], 1000⟩ 1 5 300 false).1 1 = 0 ∧
    (payoutAttempt ⟨700, [(1, 300)], 1000⟩ 1 5 300 false).2 = [] ∧
    transferredTotal (runAttempts 1 ⟨700, [(1, 300)], 1000⟩
      [(5, 300, false), (5, 300, true)]).2 ≤ 300 := by
  obtain ⟨h1, h2, h3, h4⟩ := C2_payout_commit_before_transfer ⟨700, [(1, 300)], 1000⟩ 1 5
    300 300 (by decide) (by decide) (by decide) (by decide)
  refine ⟨?_, h3, h4 [(5, 300, false), (5, 300, true)]⟩
  rw [h2]
  decide

/-- Claim C7 counterexample: `release` increases `available`.  After funding
10 and reserving 5 for game 7, `available` is 5; the call `release 7 3` —
which is neither `fund` nor `reserve` — raises `available` to 8, refuting the
claim that `available` only increases via `fund`. -/
theorem C7_counterexample :
    (applyOps initState [.fund 1 10, .reserve 7 5]).available = 5 ∧
    (applyOp (applyOps initState [.fund 1 10, .reserve 7 5]) (.release 7 3)).available = 8 := by
  decide

/-- Claim C7 (amended): over every reachable ledger state, `available` never
decreases via `fund` or `release` and never increases via `reserve`; `payout`
leaves `available` unchanged; and `available` is nonnegative after every
call.  (The original claim that `available` only increases via `fund` fails:
`release` returns reserved funds to `available`, see `C7_counterexample`.) -/
theorem C7_available_frame (ops : List Op) (src dest : Addr) (g : GameId) (a : Int) (ok : Bool) :
    0 ≤ (applyOps initState ops).available ∧
    (applyOps initState ops).available ≤
      (applyOp (applyOps initState ops) (.fund src a)).available ∧
    (applyOp (applyOps initState ops) (.reserve g a)).available ≤
      (applyOps initState ops).available ∧
    (applyOps initState ops).available ≤
      (applyOp (applyOps initState ops) (.release g a)).available ∧
    (applyOp (applyOps initState ops) (.payout g dest a ok)).available =
      (applyOps initState ops).available := by
  obtain ⟨hav, hpos, hnd, hsum⟩ := inv_applyOps ops initState initState_inv
  refine ⟨hav, ?_, ?_, ?_, ?_⟩
  · simp only [applyOp]
    cases hf : fund (applyOps initState ops) src a with
    | error e => exact le_refl _
    | ok s' =>
      obtain ⟨hs', ha⟩ := fund_ok _ src a s' hf
      subst hs'
      simp only [Except.toOption, Option.getD]
      omega
  · simp only [applyOp]
    cases hf : reserve (applyOps initState ops) g a with
    | error e => exact le_refl _
    | ok s' =>
      obtain ⟨hs', _, ha, _⟩ := reserve_ok _ g a s' hf
      subst hs'
      simp only [Except.toOption, Option.getD]
      omega
  · simp only [applyOp]
    cases hf : release (applyOps initState ops) g a with
    | error e => exact le_refl _
    | ok s' =>
      obtain ⟨r, hl, ha, hs'⟩ := release_ok _ g a s' hf
      subst hs'
      have hr : 0 ≤ r := hpos _ (alookup_mem _ _ _ hl)
      have : 0 ≤ min a r := le_min (by omega) hr
      simp only [Except.toOption, Option.getD]
      omega
  · simp only [applyOp, payoutAttempt]
    cases hf : payoutCommit (applyOps initState ops) g a with
    | error e => rfl
    | ok s' =>
      obtain ⟨r, _, _, _, hs'⟩ := payoutCommit_ok _ g a s' hf
      subst hs'
      rfl

/-- Claim C8: a successful `reserve(g, x)` followed by `reserve(g, y)` always
fails on the second call with `GameAlreadyReserved`, for every `x` and `y`,
and the failed second call leaves the pool state entirely unchanged. -/
theorem C8_reserve_idempotency (s s' : PoolState) (g : GameId) (x y : Int)
    (h : reserve s g x = .ok s') :
    reserve s' g y = .error .GameAlreadyReserved ∧ applyOp s' (.reserve g y) = s' := by
  obtain ⟨hs', hl, hx, hle⟩ := reserve_ok s g x s' h
  subst hs'
  have herr : reserve ⟨s.available - x, (g, x) :: s.reservations, s.funded⟩ g y =
      .error .GameAlreadyReserved := by
    simp [reserve, alookup]
  refine ⟨herr, ?_⟩
  simp only [applyOp]
  rw [herr]
  rfl

/-- Witness for C8: in a pool with 10 available, reserving 4 for game 3
succeeds, and a second reservation for game 3 — with a different amount —
fails `GameAlreadyReserved`. -/
theorem C8_witness :
    reserve ⟨10, [], 10⟩ 3 4 = .ok ⟨6, [(3, 4)], 10⟩ ∧
    reserve ⟨6, [(3, 4)], 10⟩ 3 9 = .error .GameAlreadyReserved := by
  refine ⟨by rfl, ?_⟩
  exact (C8_reserve_idempotency ⟨10, [], 10⟩ ⟨6, [(3, 4)], 10⟩ 3 4 9 (by rfl)).1

end PrizePool

/-- The FIPS-180 test vector for the three-byte message 0x616263: the model's
SHA-256 agrees with the published digest ba7816bf...f20015ad. -/
theorem sha256_abc_vector :
    Sha256.sha256 [0x61, 0x62, 0x63] =
      [0xba, 0x78, 0x16, 0xbf, 0x8f, 0x01, 0xcf, 0xea, 0x41, 0x41, 0x40, 0xde,
       0x5d, 0xae, 0x22, 0x23, 0xb0, 0x03, 0x61, 0xa3, 0x96, 0x17, 0x7a, 0x9c,
       0xb4, 0x10, 0xff, 0x61, 0xf2, 0x00, 0x15, 0xad] := by
  set_option maxRecDepth 1000000 in decide

namespace RandomGenerator

/-! The random-generator oracle.  The contract's Soroban source is absent
from the tree; the operations are modelled from the spec and from the
random-generator documentation (src/unnamed/part_020).  The documentation
fixes no order between its preconditions; the model checks authorization
first and the global uniqueness of `request_id` before payload validation. -/

abbrev Addr := Nat

inductive OError where
  | AlreadyInitialized
  | NotInitialized
  | NotAuthorized
  | InvalidMax
  | DuplicateRequestId
  | RequestNotFound
  | AlreadyFulfilled
deriving DecidableEq

/-- A randomness request: pending with its `max`, or fulfilled with the
revealed seed and the derived result. -/
inductive Request where
  | pending (max : Nat)
  | fulfilled (server_seed : List Nat) (result : Nat)
deriving DecidableEq

/-- Modelled from the spec: the state of the absent random-generator
contract — admin, the sole oracle principal, the requester whitelist and the
request table keyed by `request_id`. -/
structure OracleState where
  admin : Addr
  oracle : Addr
  whitelist : List Addr
  requests : List (Nat × Request)
deriving DecidableEq

/-- Modelled from the spec: the result derivation of `fulfill_random`,
`sha256(server_seed || request_id_be_bytes)[0..8] % max`. -/
def computeResult (server_seed : List Nat) (request_id max : Nat) : Nat :=
  Sha256.beToNat ((Sha256.sha256 (server_seed ++ Sha256.u64ToBytes request_id)).take 8) % max

/-- Modelled from the spec: `request_random(caller, request_id, max)` —
caller must be whitelisted, `request_id` must be globally unique across
pending and fulfilled entries (`DuplicateRequestId` otherwise), `max ≥ 2`. -/
def requestRandom (s : OracleState) (caller : Addr) (request_id max : Nat) :
    Except OError OracleState :=
  if caller ∈ s.whitelist then
    match alookup s.requests request_id with
    | some _ => .error .DuplicateRequestId
    | none =>
      if max < 2 then .error .InvalidMax
      else .ok ⟨s.admin, s.oracle, s.whitelist, (request_id, .pending max) :: s.requests⟩
  else .error .NotAuthorized

/-- Modelled from the spec: `fulfill_random(oracle, request_id, server_seed)`
— oracle only; computes the result from the stored `max`, persists seed and
result; `AlreadyFulfilled` on a second call, `RequestNotFound` when the id is
unknown. -/
def fulfillRandom (s : OracleState) (caller : Addr) (request_id : Nat)
    (server_seed : List Nat) : Except OError OracleState :=
  if caller = s.oracle then
    match alookup s.requests request_id with
    | none => .error .RequestNotFound
    | some (.fulfilled _ _) => .error .AlreadyFulfilled
    | some (.pending m) =>
      .ok ⟨s.admin, s.oracle, s.whitelist,
           aset s.requests request_id (.fulfilled server_seed (computeResult server_seed request_id m))⟩
  else .error .NotAuthorized

/-- Modelled from the spec: `get_result(request_id)` returns the fulfilled
entry, or `RequestNotFound` while pending or unknown. -/
def getResult (s : OracleState) (request_id : Nat) : Except OError (List Nat × Nat) :=
  match alookup s.requests request_id with
  | some (.fulfilled seed r) => .ok (seed, r)
  | _ => .error .RequestNotFound

/-- Modelled from the spec: admin-only whitelist addition. -/
def authorize (s : OracleState) (caller target : Addr) : Except OError OracleState :=
  if caller = s.admin then .ok ⟨s.admin, s.oracle, target :: s.whitelist, s.requests⟩
  else .error .NotAuthorized

/-- Modelled from the spec: admin-only whitelist removal. -/
def revoke (s : OracleState) (caller target : Addr) : Except OError OracleState :=
  if caller = s.admin then
    .ok ⟨s.admin, s.oracle, s.whitelist.filter (fun a => a ≠ target), s.requests⟩
  else .error .NotAuthorized

/-- An oracle call in a trace. -/
inductive OOp where
  | authorize (caller target : Addr)
  | revoke (caller target : Addr)
  | request (caller : Addr) (request_id max : Nat)
  | fulfill (caller : Addr) (request_id : Nat) (server_seed : List Nat)
deriving DecidableEq

/-- Apply one oracle call; a failed call leaves the state unchanged. -/
def applyOOp (s : OracleState) : OOp → OracleState
  | .authorize c t => ((authorize s c t).toOption).getD s
  | .revoke c t => ((revoke s c t).toOption).getD s
  | .request c id m => ((requestRandom s c id m).toOption).getD s
  | .fulfill c id seed => ((fulfillRandom s c id seed).toOption).getD s

def applyOOps (s : OracleState) (ops : List OOp) : OracleState := ops.foldl applyOOp s

theorem requestRandom_ok (s : OracleState) (c : Addr) (id m : Nat) (s' : OracleState)
    (h : requestRandom s c id m = .ok s') :
    c ∈ s.whitelist ∧ alookup s.requests id = none ∧ 2 ≤ m ∧
    s' = ⟨s.admin, s.oracle, s.whitelist, (id, .pending m) :: s.requests⟩ := by
  unfold requestRandom at h
  split at h
  next hw =>
    split at h
    next r heq => exact absurd h (by simp)
    next heq =>
      split at h
      next hm => exact absurd h (by simp)
      next hm =>
        simp only [Except.ok.injEq] at h
        exact ⟨hw, heq, by omega, h.symm⟩
  next hw => exact absurd h (by simp)

theorem fulfillRandom_ok (s : OracleState) (c : Addr) (id : Nat) (seed : List Nat)
    (s' : OracleState) (h : fulfillRandom s c id seed = .ok s') :
    ∃ m, c = s.oracle ∧ alookup s.requests id = some (.pending m) ∧
      s' = ⟨s.admin, s.oracle, s.whitelist,
            aset s.requests id (.fulfilled seed (computeResult seed id m))⟩ := by
  unfold fulfillRandom at h
  split at h
  next hc =>
    split at h
    next heq => exact absurd h (by simp)
    next sd r heq => exact absurd h (by simp)
    next m heq =>
      simp only [Except.ok.injEq] at h
      exact ⟨m, hc, heq, h.symm⟩
  next hc => exact absurd h (by simp)

theorem fulfilled_persists (s : OracleState) (op : OOp) (id : Nat) (seed : List Nat) (r : Nat)
    (h : alookup s.requests id = some (.fulfilled seed r)) :
    alookup (applyOOp s op).requests id = some (.fulfilled seed r) := by
  cases op with
  | authorize c t =>
    simp only [applyOOp]
    cases ha : authorize s c t with
    | error e => exact h
    | ok s' =>
      unfold authorize at ha
      split at ha
      · simp only [Except.ok.injEq] at ha
        rw [← ha]
        exact h
      · exact absurd ha (by simp)
  | revoke c t =>
    simp only [applyOOp]
    cases ha : revoke s c t with
    | error e => exact h
    | ok s' =>
      unfold revoke at ha
      split at ha
      · simp only [Except.ok.injEq] at ha
        rw [← ha]
        exact h
      · exact absurd ha (by simp)
  | request c id' m =>
    simp only [applyOOp]
    cases ha : requestRandom s c id' m with
    | error e => exact h
    | ok s' =>
      obtain ⟨_, hnone, _, hs'⟩ := requestRandom_ok s c id' m s' ha
      subst hs'
      have hne : id' ≠ id := by
        intro he
        rw [he, h] at hnone
        exact absurd hnone (by simp)
      simp only [alookup, if_neg hne]
      exact h
  | fulfill c id' seed' =>
    simp only [applyOOp]
    cases ha : fulfillRandom s c id' seed' with
    | error e => exact h
    | ok s' =>
      obtain ⟨m, _, hpend, hs'⟩ := fulfillRandom_ok s c id' seed' s' ha
      subst hs'
      have hne : id' ≠ id := by
        intro he
        rw [he, h] at hpend
        exact absurd hpend (by simp)
      show alookup (aset s.requests id' (Request.fulfilled seed' (computeResult seed' id' m)))
          id = some (Request.fulfilled seed r)
      rw [alookup_aset_ne _ _ _ _ hne]
      exact h

theorem fulfilled_persists_ops (ops : List OOp) (s : OracleState) (id : Nat)
    (seed : List Nat) (r : Nat)
    (h : alookup s.requests id = some (.fulfilled seed r)) :
    alookup (applyOOps s ops).requests id = some (.fulfilled seed r) := by
  induction ops generalizing s with
  | nil => exact h
  | cons op rest ih => exact ih (applyOOp s op) (fulfilled_persists s op id seed r h)

end RandomGenerator

namespace RandomGenerator

/-- Claim C3: for a request created by `request_random(caller, id, max)` and
fulfilled by `fulfill_random` from the oracle principal, the stored result
equals `sha256(server_seed || request_id_be_bytes)[0..8] % max`, lies in
`[0, max-1]`, `get_result(id)` returns exactly the stored
`(server_seed, result)` pair, and it keeps returning the same pair after any
further sequence of oracle calls; the result is a pure function
`computeResult` of the `(seed, id, max)` triple, so equal triples always
yield equal results. -/
theorem C3_randomness_determinism (s s₁ s₂ : OracleState) (caller : Addr) (id m : Nat)
    (seed : List Nat)
    (hreq : requestRandom s caller id m = .ok s₁)
    (hful : fulfillRandom s₁ s₁.oracle id seed = .ok s₂) :
    computeResult seed id m =
      Sha256.beToNat ((Sha256.sha256 (seed ++ Sha256.u64ToBytes id)).take 8) % m ∧
    computeResult seed id m < m ∧
    getResult s₂ id = .ok (seed, computeResult seed id m) ∧
    (∀ ops, getResult (applyOOps s₂ ops) id = .ok (seed, computeResult seed id m)) := by
  obtain ⟨hwl, hnone, hm, hs₁⟩ := requestRandom_ok s caller id m s₁ hreq
  obtain ⟨m', hc, hl, hs₂⟩ := fulfillRandom_ok s₁ s₁.oracle id seed s₂ hful
  have hmm : m' = m := by
    rw [hs₁] at hl
    simp [alookup] at hl
    omega
  subst hmm
  have hfl : alookup s₂.requests id = some (.fulfilled seed (computeResult seed id m')) := by
    rw [hs₂]
    exact alookup_aset_self _ _ _ (by rw [hl]; simp)
  refine ⟨rfl, ?_, ?_, ?_⟩
  · exact Nat.mod_lt _ (by omega)
  · simp [getResult, hfl]
  · intro ops
    have hper := fulfilled_persists_ops ops s₂ id seed (computeResult seed id m') hfl
    simp [getResult, hper]

/-- A concrete oracle deployment: admin 900, oracle principal 901, game
contract 500 whitelisted, empty request table. -/
def oracleSample : OracleState := ⟨900, 901, [500], []⟩

/-- A concrete server seed. -/
def seedSample : List Nat := [17, 34, 51]

/-- Witness for C3 in the shape of the spec's Scenario B:
`request_random(500, 42, 6)` then `fulfill_random(901, 42, seed)` stores
`computeResult seed 42 6`, which evaluates to 1 — a value in `[0, 5]` — and
`get_result 42` returns the stored pair. -/
theorem C3_witness :
    requestRandom oracleSample 500 42 6 = .ok ⟨900, 901, [500], [(42, .pending 6)]⟩ ∧
    fulfillRandom ⟨900, 901, [500], [(42, .pending 6)]⟩ 901 42 seedSample =
      .ok ⟨900, 901, [500], [(42, .fulfilled seedSample (computeResult seedSample 42 6))]⟩ ∧
    computeResult seedSample 42 6 = 1 ∧
    computeResult seedSample 42 6 < 6 ∧
    getResult ⟨900, 901, [500], [(42, .fulfilled seedSample (computeResult seedSample 42 6))]⟩
      42 = .ok (seedSample, computeResult seedSample 42 6) := by
  have h1 : requestRandom oracleSample 500 42 6 =
      .ok ⟨900, 901, [500], [(42, .pending 6)]⟩ := by rfl
  have h2 : fulfillRandom ⟨900, 901, [500], [(42, .pending 6)]⟩ 901 42 seedSample =
      .ok ⟨900, 901, [500], [(42, .fulfilled seedSample (computeResult seedSample 42 6))]⟩ := by
    rfl
  obtain ⟨_, hlt, hres, _⟩ :=
    C3_randomness_determinism oracleSample _ _ 500 42 6 seedSample h1 h2
  refine ⟨h1, h2, ?_, hlt, hres⟩
  set_option maxRecDepth 1000000 in decide

/-- Claim C9: whenever any entry — pending or fulfilled — already exists for
`request_id`, `request_random` fails for every caller and leaves the request
table unchanged, and for every caller that is allowed to request at all
(whitelisted) the error is precisely `DuplicateRequestId`, independent of
which principal created the existing entry and of `max` — uniqueness is
platform-wide, not per-caller. -/
theorem C9_duplicate_request_id (s : OracleState) (id : Nat) (e : Request) (caller : Addr)
    (m : Nat) (hdup : alookup s.requests id = some e) :
    (∃ err, requestRandom s caller id m = .error err) ∧
    applyOOp s (.request caller id m) = s ∧
    (caller ∈ s.whitelist → requestRandom s caller id m = .error .DuplicateRequestId) := by
  by_cases hw : caller ∈ s.whitelist
  · have herr : requestRandom s caller id m = .error .DuplicateRequestId := by
      simp [requestRandom, hw, hdup]
    refine ⟨⟨_, herr⟩, ?_, fun _ => herr⟩
    simp only [applyOOp]
    rw [herr]
    rfl
  · have herr : requestRandom s caller id m = .error .NotAuthorized := by
      simp [requestRandom, hw]
    refine ⟨⟨_, herr⟩, ?_, fun hww => absurd hww hw⟩
    simp only [applyOOp]
    rw [herr]
    rfl

/-- Witness for C9: with a pending entry for id 42 created by caller 500, a
second request for id 42 by the different whitelisted caller 501 and a
different max fails `DuplicateRequestId` and leaves the table unchanged. -/
theorem C9_witness :
    alookup ((⟨900, 901, [500, 501], [(42, .pending 6)]⟩ : OracleState).requests) 42 =
      some (.pending 6) ∧
    requestRandom ⟨900, 901, [500, 501], [(42, .pending 6)]⟩ 501 42 10 =
      .error .DuplicateRequestId ∧
    applyOOp ⟨900, 901, [500, 501], [(42, .pending 6)]⟩ (.request 501 42 10) =
      ⟨900, 901, [500, 501], [(42, .pending 6)]⟩ := by
  obtain ⟨_, h2, h3⟩ := C9_duplicate_request_id ⟨900, 901, [500, 501], [(42, .pending 6)]⟩
    42 (.pending 6) 501 10 (by rfl)
  exact ⟨by rfl, h3 (by decide), h2⟩

end RandomGenerator

namespace NumberGuess

/-! The number-guess game coordinator.  The contract's Soroban source is
absent from the tree; the operations are modelled from the spec and from
docs/contracts/number-guess.md.  The system state carries the oracle state,
the (untouched) prize pool, the per-game records and a token-transfer log. -/

abbrev Addr := Nat

inductive NError where
  | AlreadyInitialized
  | NotInitialized
  | NotAuthorized
  | GameNotFound
  | GameAlreadyExists
  | WagerOutOfBounds
  | InvalidRange
  | InvalidStatus
  | AlreadyGuessed
  | GuessOutOfRange
  | ChoiceAfterReveal
  | NoGuess
  | RandomnessPending
  | RngRequestFailed
deriving DecidableEq

inductive Status where
  | Open
  | AwaitingRandomness
  | Resolved
  | Claimed
deriving DecidableEq

/-- Modelled from the spec: the per-game record — player, wager, the declared
guessing range `[lo, hi]`, the optional locked-in guess, the lifecycle
status, and the payout written at resolution. -/
structure Game where
  player : Addr
  wager : Int
  lo : Nat
  hi : Nat
  guess : Option Nat
  status : Status
  payoutAmount : Int
deriving DecidableEq

/-- Modelled from the spec: the init-time configuration of the number-guess
contract (the `prize_pool_contract` is documented as reserved for future
integration). -/
structure Config where
  rng_contract : Addr
  prize_pool_contract : Addr
  balance_contract : Addr
  min_wager : Int
  max_wager : Int
  house_edge_bps : Int
deriving DecidableEq

/-- The combined system the coordinator claims speak about: the game
contract's own state plus the oracle it calls, the prize pool it is
documented not to touch yet, and the log of token transfers it causes. -/
structure Sys where
  cfg : Config
  contractAddr : Addr
  pool : PrizePool.PoolState
  oracle : RandomGenerator.OracleState
  games : List (Nat × Game)
  transfers : List (Addr × Addr × Int)
deriving DecidableEq

/-- Modelled from the spec: `start_game` per docs/contracts/number-guess.md —
validates the wager bounds and the range, transfers the wager from the player
directly into the game contract (no ledger reservation: the prize-pool
integration is reserved for future use), and submits a randomness request to
the RNG contract using `game_id` as the request identifier with
`max = hi - lo + 1`; the game then awaits randomness. -/
def startGame (s : Sys) (player : Addr) (game_id lo hi : Nat) (wager : Int) :
    Except NError Sys :=
  if (alookup s.games game_id).isSome then .error .GameAlreadyExists
  else if wager < s.cfg.min_wager ∨ s.cfg.max_wager < wager then .error .WagerOutOfBounds
  else if hi ≤ lo then .error .InvalidRange
  else
    match RandomGenerator.requestRandom s.oracle s.contractAddr game_id (hi - lo + 1) with
    | .error _ => .error .RngRequestFailed
    | .ok o' =>
      .ok ⟨s.cfg, s.contractAddr, s.pool, o',
           (game_id, ⟨player, wager, lo, hi, none, .AwaitingRandomness, 0⟩) :: s.games,
           s.transfers ++ [(player, s.contractAddr, wager)]⟩

/-- Modelled from the spec: `submit_guess` — only the game's player may call;
accepted only while the game awaits randomness and the RNG request is still
pending (`get_result` still fails), so a guess after fulfillment is rejected
`ChoiceAfterReveal`; one guess per game; the guess must lie in `[lo, hi]`. -/
def submitGuess (s : Sys) (caller : Addr) (game_id guess : Nat) : Except NError Sys :=
  match alookup s.games game_id with
  | none => .error .GameNotFound
  | some g =>
    if caller ≠ g.player then .error .NotAuthorized
    else if g.status ≠ .AwaitingRandomness then .error .InvalidStatus
    else
      match RandomGenerator.getResult s.oracle game_id with
      | .ok _ => .error .ChoiceAfterReveal
      | .error _ =>
        if g.guess.isSome then .error .AlreadyGuessed
        else if guess < g.lo ∨ g.hi < guess then .error .GuessOutOfRange
        else .ok ⟨s.cfg, s.contractAddr, s.pool, s.oracle,
                  aset s.games game_id
                    ⟨g.player, g.wager, g.lo, g.hi, some guess, g.status, g.payoutAmount⟩,
                  s.transfers⟩

/-- Modelled from the spec: `resolve_game` — no authorization (the caller
argument plays no role); requires the RNG request fulfilled; the secret is
`lo + (result % range_size)`; the payout is written into the game record
before the token transfer is emitted; a win pays the wager scaled by the
range multiplier reduced by `house_edge_bps`. -/
def resolveGame (s : Sys) (_caller : Addr) (game_id : Nat) : Except NError Sys :=
  match alookup s.games game_id with
  | none => .error .GameNotFound
  | some g =>
    if g.status ≠ .AwaitingRandomness then .error .InvalidStatus
    else
      match RandomGenerator.getResult s.oracle game_id with
      | .error _ => .error .RandomnessPending
      | .ok pr =>
        match g.guess with
        | none => .error .NoGuess
        | some guess =>
          if guess = g.lo + pr.2 % (g.hi - g.lo + 1) then
            .ok ⟨s.cfg, s.contractAddr, s.pool, s.oracle,
                 aset s.games game_id
                   ⟨g.player, g.wager, g.lo, g.hi, g.guess, .Resolved,
                    g.wager * ((g.hi - g.lo + 1 : Nat) : Int) *
                      (10000 - s.cfg.house_edge_bps) / 10000⟩,
                 s.transfers ++
                   [(s.contractAddr, g.player,
                     g.wager * ((g.hi - g.lo + 1 : Nat) : Int) *
                       (10000 - s.cfg.house_edge_bps) / 10000)]⟩
          else
            .ok ⟨s.cfg, s.contractAddr, s.pool, s.oracle,
                 aset s.games game_id
                   ⟨g.player, g.wager, g.lo, g.hi, g.guess, .Resolved, 0⟩,
                 s.transfers⟩

/-- A call in an interleaving of choice submissions and oracle
fulfillments. -/
inductive GOp where
  | submit (caller : Addr) (game_id guess : Nat)
  | fulfill (caller : Addr) (game_id : Nat) (server_seed : List Nat)
deriving DecidableEq

/-- Apply one call; a failed call leaves the system unchanged. -/
def applyGOp (s : Sys) : GOp → Sys
  | .submit c id g => ((submitGuess s c id g).toOption).getD s
  | .fulfill c id seed =>
    match RandomGenerator.fulfillRandom s.oracle c id seed with
    | .ok o' => ⟨s.cfg, s.contractAddr, s.pool, o', s.games, s.transfers⟩
    | .error _ => s

def applyGOps (s : Sys) (ops : List GOp) : Sys := ops.foldl applyGOp s

end NumberGuess

namespace NumberGuess

theorem submitGuess_ok (s : Sys) (c : Addr) (id g : Nat) (t : Sys)
    (h : submitGuess s c id g = .ok t) :
    ∃ gm, alookup s.games id = some gm ∧ c = gm.player ∧
      gm.status = .AwaitingRandomness ∧
      (∃ e, RandomGenerator.getResult s.oracle id = .error e) ∧
      gm.guess = none ∧
      t = ⟨s.cfg, s.contractAddr, s.pool, s.oracle,
           aset s.games id ⟨gm.player, gm.wager, gm.lo, gm.hi, some g, gm.status,
                            gm.payoutAmount⟩,
           s.transfers⟩ := by
  unfold submitGuess at h
  split at h
  next => exact absurd h (by simp)
  next gm hgm =>
    split at h
    next => exact absurd h (by simp)
    next hpc =>
      split at h
      next => exact absurd h (by simp)
      next hst =>
        split at h
        next pr heq => exact absurd h (by simp)
        next e heq =>
          split at h
          next => exact absurd h (by simp)
          next hgs =>
            split at h
            next => exact absurd h (by simp)
            next hrange =>
              simp only [Except.ok.injEq] at h
              push_neg at hpc hst
              refine ⟨gm, hgm, hpc, hst, ⟨e, heq⟩, ?_, ?_⟩
              · cases hg : gm.guess with
                | none => rfl
                | some v =>
                  rw [hg] at hgs
                  simp at hgs
              · rw [← h]
  
end NumberGuess

namespace NumberGuess

theorem game_fields_persist (s : Sys) (op : GOp) (id : Nat) (gm : Game)
    (h : alookup s.games id = some gm) (hst : gm.status = .AwaitingRandomness) :
    ∃ gm', alookup (applyGOp s op).games id = some gm' ∧ gm'.player = gm.player ∧
      gm'.status = .AwaitingRandomness := by
  cases op with
  | fulfill c id' seed =>
    simp only [applyGOp]
    cases hf : RandomGenerator.fulfillRandom s.oracle c id' seed with
    | ok o' => exact ⟨gm, h, rfl, hst⟩
    | error e => exact ⟨gm, h, rfl, hst⟩
  | submit c id' g =>
    simp only [applyGOp]
    cases hf : submitGuess s c id' g with
    | error e => exact ⟨gm, h, rfl, hst⟩
    | ok t =>
      obtain ⟨gm', hlook, hc, hst', hpend, hg, ht⟩ := submitGuess_ok s c id' g t hf
      subst ht
      by_cases hid : id' = id
      · subst hid
        rw [h] at hlook
        have hgg : gm' = gm := by
          simp only [Option.some.injEq] at hlook
          exact hlook.symm
        subst hgg
        refine ⟨⟨gm'.player, gm'.wager, gm'.lo, gm'.hi, some g, gm'.status, gm'.payoutAmount⟩,
          ?_, rfl, hst'⟩
        show alookup (aset s.games id' _) id' = _
        exact alookup_aset_self _ _ _ (by rw [h]; simp)
      · refine ⟨gm, ?_, rfl, hst⟩
        show alookup (aset s.games id' _) id = some gm
        rw [alookup_aset_ne _ _ _ _ hid]
        exact h

theorem sys_fulfilled_persists (s : Sys) (op : GOp) (id : Nat) (seed : List Nat) (r : Nat)
    (h : alookup s.oracle.requests id = some (.fulfilled seed r)) :
    alookup (applyGOp s op).oracle.requests id = some (.fulfilled seed r) := by
  cases op with
  | submit c id' g =>
    simp only [applyGOp]
    cases hf : submitGuess s c id' g with
    | error e => exact h
    | ok t =>
      obtain ⟨gm', _, _, _, _, _, ht⟩ := submitGuess_ok s c id' g t hf
      subst ht
      exact h
  | fulfill c id' seed' =>
    simp only [applyGOp]
    cases hf : RandomGenerator.fulfillRandom s.oracle c id' seed' with
    | error e => exact h
    | ok o' =>
      obtain ⟨m, _, hpend, ho'⟩ := RandomGenerator.fulfillRandom_ok s.oracle c id' seed' o' hf
      subst ho'
      have hne : id' ≠ id := by
        intro he
        rw [he, h] at hpend
        exact absurd hpend (by simp)
      show alookup (aset s.oracle.requests id'
        (RandomGenerator.Request.fulfilled seed'
          (RandomGenerator.computeResult seed' id' m))) id = _
      rw [alookup_aset_ne _ _ _ _ hne]
      exact h

theorem awaiting_fulfilled_persist_ops (ops : List GOp) (s : Sys) (id : Nat)
    (gm : Game) (seed : List Nat) (r : Nat)
    (hg : alookup s.games id = some gm) (hst : gm.status = .AwaitingRandomness)
    (hful : alookup s.oracle.requests id = some (.fulfilled seed r)) :
    ∃ gm', alookup (applyGOps s ops).games id = some gm' ∧ gm'.player = gm.player ∧
      gm'.status = .AwaitingRandomness ∧
      alookup (applyGOps s ops).oracle.requests id = some (.fulfilled seed r) := by
  induction ops generalizing s gm with
  | nil => exact ⟨gm, hg, rfl, hst, hful⟩
  | cons op rest ih =>
    obtain ⟨gm1, hg1, hp1, hst1⟩ := game_fields_persist s op id gm hg hst
    have hful1 := sys_fulfilled_persists s op id seed r hful
    obtain ⟨gm', hg', hp', hst', hful'⟩ := ih (applyGOp s op) gm1 hg1 hst1 hful1
    exact ⟨gm', hg', by rw [hp', hp1], hst', hful'⟩

theorem submit_rejected_when_fulfilled (s : Sys) (id g : Nat) (gm : Game)
    (seed : List Nat) (r : Nat)
    (hg : alookup s.games id = some gm) (hst : gm.status = .AwaitingRandomness)
    (hful : alookup s.oracle.requests id = some (.fulfilled seed r)) :
    submitGuess s gm.player id g = .error .ChoiceAfterReveal := by
  have hres : RandomGenerator.getResult s.oracle id = .ok (seed, r) := by
    simp [RandomGenerator.getResult, hful]
  simp [submitGuess, hg, hst, hres]

end NumberGuess

namespace NumberGuess

/-- Claim C4: for a game with an explicit post-opening player choice
(number-guess), once the correlated randomness request is fulfilled, the
player's choice submission is rejected `ChoiceAfterReveal` after ANY further
interleaving of submit and fulfill calls; and a submission ever succeeds only
while the game is `AwaitingRandomness` and the oracle still reports the
request pending (`get_result` failing). -/
theorem C4_choice_after_reveal (s : Sys) (id g : Nat) (gm : Game) (seed : List Nat)
    (r : Nat) (ops : List GOp)
    (hg : alookup s.games id = some gm) (hst : gm.status = .AwaitingRandomness)
    (hful : alookup s.oracle.requests id = some (.fulfilled seed r)) :
    submitGuess (applyGOps s ops) gm.player id g = .error .ChoiceAfterReveal ∧
    (∀ (s' : Sys) (c : Addr) (i gu : Nat) (t : Sys), submitGuess s' c i gu = .ok t →
      ∃ h, alookup s'.games i = some h ∧ h.status = .AwaitingRandomness ∧
        ∃ e, RandomGenerator.getResult s'.oracle i = .error e) := by
  constructor
  · obtain ⟨gm', hg', hp', hst', hful'⟩ :=
      awaiting_fulfilled_persist_ops ops s id gm seed r hg hst hful
    have hrej := submit_rejected_when_fulfilled (applyGOps s ops) id g gm' seed r hg' hst' hful'
    rw [hp'] at hrej
    exact hrej
  · intro s' c i gu t ht
    obtain ⟨gmx, hlook, _, hstx, hpend, _, _⟩ := submitGuess_ok s' c i gu t ht
    exact ⟨gmx, hlook, hstx, hpend⟩

/-- A concrete system: game 11 by player 7 awaiting randomness with no guess
yet, while the oracle has already fulfilled request 11. -/
def sysFulfilled : Sys :=
  ⟨⟨600, 601, 602, 10, 100, 250⟩, 500, PrizePool.initState,
   ⟨900, 901, [500], [(11, .fulfilled [7] 1)]⟩,
   [(11, ⟨7, 50, 1, 6, none, .AwaitingRandomness, 0⟩)], []⟩

/-- Witness for C4: in `sysFulfilled` (request 11 already fulfilled), the
player's guess submission — with no intervening calls — is rejected
`ChoiceAfterReveal`. -/
theorem C4_witness :
    submitGuess sysFulfilled 7 11 3 = .error .ChoiceAfterReveal :=
  (C4_choice_after_reveal sysFulfilled 11 3 ⟨7, 50, 1, 6, none, .AwaitingRandomness, 0⟩
    [7] 1 [] (by rfl) (by rfl) (by rfl)).1

theorem startGame_ok (s : Sys) (p : Addr) (id lo hi : Nat) (w : Int) (t : Sys)
    (h : startGame s p id lo hi w = .ok t) :
    alookup s.games id = none ∧ s.cfg.min_wager ≤ w ∧ w ≤ s.cfg.max_wager ∧ lo < hi ∧
    t.pool = s.pool ∧
    t.transfers = s.transfers ++ [(p, s.contractAddr, w)] ∧
    alookup t.oracle.requests id = some (.pending (hi - lo + 1)) ∧
    alookup t.games id = some ⟨p, w, lo, hi, none, .AwaitingRandomness, 0⟩ := by
  unfold startGame at h
  split at h
  next hex => exact absurd h (by simp)
  next hex =>
    split at h
    next => exact absurd h (by simp)
    next hw =>
      split at h
      next => exact absurd h (by simp)
      next hr =>
        split at h
        next e heq => exact absurd h (by simp)
        next o' heq =>
          obtain ⟨_, hnone, _, ho'⟩ := RandomGenerator.requestRandom_ok _ _ _ _ _ heq
          simp only [Except.ok.injEq] at h
          subst ho'
          rw [← h]
          push_neg at hw
          refine ⟨?_, hw.1, hw.2, by omega, rfl, rfl, ?_, ?_⟩
          · cases hl : alookup s.games id with
            | none => rfl
            | some v => rw [hl] at hex; simp at hex
          · show alookup ((id, RandomGenerator.Request.pending (hi - lo + 1)) ::
              s.oracle.requests) id = _
            simp [alookup]
          · show alookup ((id, (⟨p, w, lo, hi, none, .AwaitingRandomness, 0⟩ : Game)) ::
              s.games) id = _
            simp [alookup]

end NumberGuess

namespace NumberGuess

/-- A concrete deployment before any game: funded pool of 1000 with no
reservations, oracle with game contract 500 whitelisted, no games. -/
def sysOpen : Sys :=
  ⟨⟨600, 601, 602, 10, 100, 250⟩, 500, ⟨1000, [], 1000⟩, ⟨900, 901, [500], []⟩, [], []⟩

/-- The system after `start_game(player 7, game 11, range [1,6], wager 50)`
succeeds on `sysOpen`. -/
def sysOpened : Sys :=
  ⟨⟨600, 601, 602, 10, 100, 250⟩, 500, ⟨1000, [], 1000⟩,
   ⟨900, 901, [500], [(11, .pending 6)]⟩,
   [(11, ⟨7, 50, 1, 6, none, .AwaitingRandomness, 0⟩)], [(7, 500, 50)]⟩

/-- Claim C6 counterexample: a successful `start_game` creates the pending
randomness request with the game's id, but NO reservation keyed by `game_id`
exists in the Settlement Ledger afterwards — the wager is escrowed by a
direct token transfer and the prize pool is untouched (`prize_pool_contract`
is documented as reserved for future integration), refuting the claim that
the opening escrows via the Ledger's `reserve`. -/
theorem C6_counterexample :
    startGame sysOpen 7 11 1 6 50 = .ok sysOpened ∧
    alookup sysOpened.oracle.requests 11 = some (.pending 6) ∧
    sysOpened.pool = sysOpen.pool ∧
    alookup sysOpened.pool.reservations 11 = none := by
  refine ⟨by rfl, by rfl, by rfl, by rfl⟩

/-- Claim C6 (amended): every successful game opening validates
`min_wager ≤ wager ≤ max_wager`, escrows the wager by a direct token transfer
from the player into the game contract — the Settlement Ledger is untouched
and no reservation keyed by `game_id` is created, since the prize-pool
integration is documented as reserved for future use — and submits a
randomness request with the same `game_id`, so that afterwards a pending
request with that id exists in the Oracle and the game awaits randomness. -/
theorem C6_start_game_escrow_and_request (s : Sys) (p : Addr) (id lo hi : Nat) (w : Int)
    (t : Sys) (h : startGame s p id lo hi w = .ok t) :
    s.cfg.min_wager ≤ w ∧ w ≤ s.cfg.max_wager ∧
    t.transfers = s.transfers ++ [(p, s.contractAddr, w)] ∧
    alookup t.oracle.requests id = some (.pending (hi - lo + 1)) ∧
    t.pool = s.pool ∧
    alookup t.games id = some ⟨p, w, lo, hi, none, .AwaitingRandomness, 0⟩ := by
  obtain ⟨_, h1, h2, _, h3, h4, h5, h6⟩ := startGame_ok s p id lo hi w t h
  exact ⟨h1, h2, h4, h5, h3, h6⟩

/-- Witness for C6 (amended) at the concrete opening of `sysOpen`. -/
theorem C6_witness :
    sysOpen.cfg.min_wager ≤ 50 ∧ (50 : Int) ≤ sysOpen.cfg.max_wager ∧
    sysOpened.transfers = sysOpen.transfers ++ [(7, sysOpen.contractAddr, 50)] ∧
    alookup sysOpened.oracle.requests 11 = some (.pending 6) ∧
    sysOpened.pool = sysOpen.pool ∧
    alookup sysOpened.games 11 = some ⟨7, 50, 1, 6, none, .AwaitingRandomness, 0⟩ :=
  C6_start_game_escrow_and_request sysOpen 7 11 1 6 50 sysOpened (by rfl)

end NumberGuess

namespace CoinFlip

/-! The coin-flip game.  Modelled from the spec and docs/contracts/coin-flip.md:
`resolve_bet` can be called by anyone — no auth — once the RNG request is
fulfilled. -/

abbrev Addr := Nat

inductive CFError where
  | AlreadyInitialized
  | NotInitialized
  | GameNotFound
  | InvalidStatus
  | RandomnessPending
deriving DecidableEq

/-- Modelled from the spec: a coin-flip bet; `side`: 0 = Heads, 1 = Tails. -/
structure Bet where
  player : Addr
  wager : Int
  side : Nat
  resolved : Bool
  won : Bool
deriving DecidableEq

structure FSys where
  house_edge_bps : Int
  contractAddr : Addr
  oracle : RandomGenerator.OracleState
  bets : List (Nat × Bet)
  transfers : List (Addr × Addr × Int)
deriving DecidableEq

/-- Modelled from the spec: `resolve_bet` — anyone can call (the caller
argument plays no role, no auth needed since the outcome is deterministic);
requires the RNG request fulfilled; the flip outcome is `result % 2`; a win
pays double the wager reduced by the house edge. -/
def resolveBet (s : FSys) (_caller : Addr) (game_id : Nat) : Except CFError FSys :=
  match alookup s.bets game_id with
  | none => .error .GameNotFound
  | some b =>
    if b.resolved then .error .InvalidStatus
    else
      match RandomGenerator.getResult s.oracle game_id with
      | .error _ => .error .RandomnessPending
      | .ok pr =>
        if b.side = pr.2 % 2 then
          .ok ⟨s.house_edge_bps, s.contractAddr, s.oracle,
               aset s.bets game_id ⟨b.player, b.wager, b.side, true, true⟩,
               s.transfers ++
                 [(s.contractAddr, b.player,
                   b.wager * 2 * (10000 - s.house_edge_bps) / 10000)]⟩
        else
          .ok ⟨s.house_edge_bps, s.contractAddr, s.oracle,
               aset s.bets game_id ⟨b.player, b.wager, b.side, true, false⟩,
               s.transfers⟩

theorem resolveBet_ok_fulfilled (s : FSys) (c : Addr) (id : Nat) (t : FSys)
    (h : resolveBet s c id = .ok t) :
    ∃ pr, RandomGenerator.getResult s.oracle id = .ok pr := by
  unfold resolveBet at h
  split at h
  next => exact absurd h (by simp)
  next b hb =>
    split at h
    next => exact absurd h (by simp)
    next hres =>
      split at h
      next e heq => exact absurd h (by simp)
      next pr heq => exact ⟨pr, heq⟩

end CoinFlip

namespace DiceRoll

/-! The dice-roll game.  Modelled from the spec and the dice-roll
documentation (src/unnamed/part_026): `resolve_roll` can be called by anyone
— no auth — once the RNG request is fulfilled. -/

abbrev Addr := Nat

inductive DRError where
  | AlreadyInitialized
  | NotInitialized
  | GameNotFound
  | InvalidStatus
  | RandomnessPending
deriving DecidableEq

/-- Modelled from the spec: a dice-roll bet; `prediction` is the predicted
die face (1-6). -/
structure Roll where
  player : Addr
  wager : Int
  prediction : Nat
  resolved : Bool
  won : Bool
deriving DecidableEq

structure DSys where
  house_edge_bps : Int
  contractAddr : Addr
  oracle : RandomGenerator.OracleState
  rolls : List (Nat × Roll)
  transfers : List (Addr × Addr × Int)
deriving DecidableEq

/-- Modelled from the spec: `resolve_roll` — anyone can call (the caller
argument plays no role); requires the RNG request fulfilled; the rolled face
is `1 + result % 6`; a win pays six times the wager reduced by the house
edge. -/
def resolveRoll (s : DSys) (_caller : Addr) (game_id : Nat) : Except DRError DSys :=
  match alookup s.rolls game_id with
  | none => .error .GameNotFound
  | some b =>
    if b.resolved then .error .InvalidStatus
    else
      match RandomGenerator.getResult s.oracle game_id with
      | .error _ => .error .RandomnessPending
      | .ok pr =>
        if b.prediction = 1 + pr.2 % 6 then
          .ok ⟨s.house_edge_bps, s.contractAddr, s.oracle,
               aset s.rolls game_id ⟨b.player, b.wager, b.prediction, true, true⟩,
               s.transfers ++
                 [(s.contractAddr, b.player,
                   b.wager * 6 * (10000 - s.house_edge_bps) / 10000)]⟩
        else
          .ok ⟨s.house_edge_bps, s.contractAddr, s.oracle,
               aset s.rolls game_id ⟨b.player, b.wager, b.prediction, true, false⟩,
               s.transfers⟩

theorem resolveRoll_ok_fulfilled (s : DSys) (c : Addr) (id : Nat) (t : DSys)
    (h : resolveRoll s c id = .ok t) :
    ∃ pr, RandomGenerator.getResult s.oracle id = .ok pr := by
  unfold resolveRoll at h
  split at h
  next => exact absurd h (by simp)
  next b hb =>
    split at h
    next => exact absurd h (by simp)
    next hres =>
      split at h
      next e heq => exact absurd h (by simp)
      next pr heq => exact ⟨pr, heq⟩

end DiceRoll

namespace NumberGuess

theorem resolveGame_ok_fulfilled (s : Sys) (c : Addr) (id : Nat) (t : Sys)
    (h : resolveGame s c id = .ok t) :
    ∃ pr, RandomGenerator.getResult s.oracle id = .ok pr := by
  unfold resolveGame at h
  split at h
  next => exact absurd h (by simp)
  next gm hgm =>
    split at h
    next => exact absurd h (by simp)
    next hst =>
      split at h
      next e heq => exact absurd h (by simp)
      next pr heq => exact ⟨pr, heq⟩

end NumberGuess

namespace ColorPrediction

/-! The color-prediction game.  Modelled from the spec and the
color-prediction documentation (src/unnamed/part_026): games accumulate a pot
of predictions, and `resolve_prediction` is ADMIN ONLY and takes the winning
color as a caller-supplied argument — it does not consult the randomness
oracle. -/

abbrev Addr := Nat

inductive CError where
  | AlreadyInitialized
  | NotInitialized
  | NotAuthorized
  | InvalidColor
  | InvalidAmount
  | GameNotFound
  | AlreadyResolved
  | AlreadyPredicted
deriving DecidableEq

/-- Modelled from the spec: the accumulated state of one prediction game —
the pot, each player's single color prediction, and the resolution state. -/
structure GameData where
  pot : Int
  predictions : List (Addr × Nat)
  resolved : Bool
  winningColor : Option Nat
deriving DecidableEq

structure CState where
  admin : Addr
  games : List (Nat × GameData)
  transfers : List (Addr × Int)
deriving DecidableEq

/-- Modelled from the spec: `place_prediction` — `color` must be one of 0-3,
the wager positive, one prediction per player per game; the game is created
implicitly on the first prediction for a `game_id`. -/
def placePrediction (s : CState) (player : Addr) (game_id color : Nat) (wager : Int) :
    Except CError CState :=
  if 4 ≤ color then .error .InvalidColor
  else if wager ≤ 0 then .error .InvalidAmount
  else
    match alookup s.games game_id with
    | none =>
      .ok ⟨s.admin, (game_id, ⟨wager, [(player, color)], false, none⟩) :: s.games,
           s.transfers⟩
    | some g =>
      if g.resolved then .error .AlreadyResolved
      else if (alookup g.predictions player).isSome then .error .AlreadyPredicted
      else .ok ⟨s.admin,
                aset s.games game_id
                  ⟨g.pot + wager, g.predictions ++ [(player, color)], false, g.winningColor⟩,
                s.transfers⟩

/-- Modelled from the spec: `resolve_prediction` — ADMIN ONLY; the winning
color is supplied by the caller (0-3); all predictions are scanned to count
winners and the game transitions to resolved; with no winners the entire pot
remains in the contract (nothing is transferred out); otherwise each winner
is paid an equal share of the pot. -/
def resolvePrediction (s : CState) (caller : Addr) (game_id winning_color : Nat) :
    Except CError CState :=
  if caller = s.admin then
    if 4 ≤ winning_color then .error .InvalidColor
    else
      match alookup s.games game_id with
      | none => .error .GameNotFound
      | some g =>
        if g.resolved then .error .AlreadyResolved
        else
          if g.predictions.filter (fun q => q.2 == winning_color) = [] then
            .ok ⟨s.admin,
                 aset s.games game_id ⟨g.pot, g.predictions, true, some winning_color⟩,
                 s.transfers⟩
          else
            .ok ⟨s.admin,
                 aset s.games game_id ⟨g.pot, g.predictions, true, some winning_color⟩,
                 s.transfers ++
                   (g.predictions.filter (fun q => q.2 == winning_color)).map
                     (fun q => (q.1,
                       g.pot / ((g.predictions.filter
                         (fun q' => q'.2 == winning_color)).length : Int)))⟩
  else .error .NotAuthorized

/-- A concrete color-prediction deployment: admin 1, one open game 5 with a
20-token pot where player 10 predicted color 0. -/
def cSample : CState := ⟨1, [(5, ⟨20, [(10, 0)], false, none⟩)], []⟩

end ColorPrediction

namespace ColorPrediction

/-- Claim C5 counterexample: for the color-prediction variant, resolution is
neither authorization-free nor independent of caller input: a non-admin
caller is rejected `NotAuthorized`, and the outcome is driven by the
caller-supplied `winning_color` — resolving the same committed state with
color 0 pays player 10 the pot, while color 1 pays nobody. -/
theorem C5_counterexample :
    resolvePrediction cSample 2 5 0 = .error .NotAuthorized ∧
    (resolvePrediction cSample 1 5 0).toOption.map (fun t => t.transfers) =
      some [(10, 20)] ∧
    (resolvePrediction cSample 1 5 1).toOption.map (fun t => t.transfers) =
      some [] := by
  refine ⟨by rfl, by decide, by decide⟩

/-- Claim C10: resolving a color-prediction game whose winning color nobody
predicted still succeeds and marks the game resolved, and the entire
accumulated pot stays in the contract: the transfer log is unchanged — no
refund, release, or payout goes to any player — and the stored pot is
untouched. -/
theorem C10_no_winner_pot_retained (s : CState) (g : GameData) (id color : Nat)
    (hg : alookup s.games id = some g) (hcol : color < 4) (hres : g.resolved = false)
    (hnw : g.predictions.filter (fun q => q.2 == color) = []) :
    resolvePrediction s s.admin id color =
      .ok ⟨s.admin, aset s.games id ⟨g.pot, g.predictions, true, some color⟩,
           s.transfers⟩ := by
  have hcol' : ¬ 4 ≤ color := by omega
  simp [resolvePrediction, hg, hres, hnw, hcol']

/-- Witness for C10: resolving game 5 of `cSample` with winning color 1 —
which player 10 (who predicted 0) did not pick — succeeds, resolves the game,
and transfers nothing, keeping the 20-token pot in the contract. -/
theorem C10_witness :
    resolvePrediction cSample 1 5 1 =
      .ok ⟨1, [(5, ⟨20, [(10, 0)], true, some 1⟩)], []⟩ :=
  C10_no_winner_pot_retained cSample ⟨20, [(10, 0)], false, none⟩ 5 1 (by rfl)
    (by decide) (by rfl) (by rfl)

end ColorPrediction

/-- Claim C5 (amended): for the RNG-derived wagering games — guess-the-number,
coin-flip, dice-roll — the resolve transition takes no authorization: the
result is identical for every caller, and a successful resolve implies the
Oracle reports the correlated request fulfilled, the outcome being a function
of the stored bet and the stored oracle result only.  The color-prediction
variant is the exception: its `resolve_prediction` is admin-only and takes
the winning color from the caller instead of the Oracle
(see `ColorPrediction.C5_counterexample`). -/
theorem C5_resolve_permissionless (sN : NumberGuess.Sys) (sC : CoinFlip.FSys)
    (sD : DiceRoll.DSys) (c₁ c₂ : Nat) (idN idC idD : Nat)
    (tN : NumberGuess.Sys) (tC : CoinFlip.FSys) (tD : DiceRoll.DSys)
    (hN : NumberGuess.resolveGame sN c₁ idN = .ok tN)
    (hC : CoinFlip.resolveBet sC c₁ idC = .ok tC)
    (hD : DiceRoll.resolveRoll sD c₁ idD = .ok tD) :
    NumberGuess.resolveGame sN c₂ idN = .ok tN ∧
    CoinFlip.resolveBet sC c₂ idC = .ok tC ∧
    DiceRoll.resolveRoll sD c₂ idD = .ok tD ∧
    (∃ pr, RandomGenerator.getResult sN.oracle idN = .ok pr) ∧
    (∃ pr, RandomGenerator.getResult sC.oracle idC = .ok pr) ∧
    (∃ pr, RandomGenerator.getResult sD.oracle idD = .ok pr) := by
  have eN : NumberGuess.resolveGame sN c₂ idN = NumberGuess.resolveGame sN c₁ idN := rfl
  have eC : CoinFlip.resolveBet sC c₂ idC = CoinFlip.resolveBet sC c₁ idC := rfl
  have eD : DiceRoll.resolveRoll sD c₂ idD = DiceRoll.resolveRoll sD c₁ idD := rfl
  exact ⟨eN.trans hN, eC.trans hC, eD.trans hD,
    NumberGuess.resolveGame_ok_fulfilled sN c₁ idN tN hN,
    CoinFlip.resolveBet_ok_fulfilled sC c₁ idC tC hC,
    DiceRoll.resolveRoll_ok_fulfilled sD c₁ idD tD hD⟩

/-- A number-guess system ready to resolve: request 11 fulfilled with result
1, guess 3 locked in. -/
def sysReadyN : NumberGuess.Sys :=
  ⟨⟨600, 601, 602, 10, 100, 250⟩, 500, PrizePool.initState,
   ⟨900, 901, [500], [(11, .fulfilled [7] 1)]⟩,
   [(11, ⟨7, 50, 1, 6, some 3, .AwaitingRandomness, 0⟩)], []⟩

/-- `sysReadyN` after resolution: secret `1 + 1 % 6 = 2 ≠ 3`, a loss. -/
def sysDoneN : NumberGuess.Sys :=
  ⟨⟨600, 601, 602, 10, 100, 250⟩, 500, PrizePool.initState,
   ⟨900, 901, [500], [(11, .fulfilled [7] 1)]⟩,
   [(11, ⟨7, 50, 1, 6, some 3, .Resolved, 0⟩)], []⟩

/-- A coin-flip system ready to resolve: request 12 fulfilled with result 1,
bet on Tails (1). -/
def sysReadyC : CoinFlip.FSys :=
  ⟨250, 500, ⟨900, 901, [500], [(12, .fulfilled [7] 1)]⟩,
   [(12, ⟨7, 50, 1, false, false⟩)], []⟩

/-- `sysReadyC` after resolution: outcome `1 % 2 = 1`, a win paying
`50 * 2 * 9750 / 10000 = 97`. -/
def sysDoneC : CoinFlip.FSys :=
  ⟨250, 500, ⟨900, 901, [500], [(12, .fulfilled [7] 1)]⟩,
   [(12, ⟨7, 50, 1, true, true⟩)], [(500, 7, 97)]⟩

/-- A dice-roll system ready to resolve: request 13 fulfilled with result 1,
predicted face 2. -/
def sysReadyD : DiceRoll.DSys :=
  ⟨250, 500, ⟨900, 901, [500], [(13, .fulfilled [7] 1)]⟩,
   [(13, ⟨7, 50, 2, false, false⟩)], []⟩

/-- `sysReadyD` after resolution: face `1 + 1 % 6 = 2`, a win paying
`50 * 6 * 9750 / 10000 = 292`. -/
def sysDoneD : DiceRoll.DSys :=
  ⟨250, 500, ⟨900, 901, [500], [(13, .fulfilled [7] 1)]⟩,
   [(13, ⟨7, 50, 2, true, true⟩)], [(500, 7, 292)]⟩

/-- Witness for C5 (amended): caller 1 resolving each ready system succeeds,
caller 2 gets the identical result, and each oracle indeed reports the
request fulfilled. -/
theorem C5_witness :
    NumberGuess.resolveGame sysReadyN 2 11 = .ok sysDoneN ∧
    CoinFlip.resolveBet sysReadyC 2 12 = .ok sysDoneC ∧
    DiceRoll.resolveRoll sysReadyD 2 13 = .ok sysDoneD ∧
    (∃ pr, RandomGenerator.getResult sysReadyN.oracle 11 = .ok pr) ∧
    (∃ pr, RandomGenerator.getResult sysReadyC.oracle 12 = .ok pr) ∧
    (∃ pr, RandomGenerator.getResult sysReadyD.oracle 13 = .ok pr) :=
  C5_resolve_permissionless sysReadyN sysReadyC sysReadyD 1 2 11 12 13
    sysDoneN sysDoneC sysDoneD (by rfl) (by rfl) (by rfl)
